import Mathlib

/-!
Shallow embedding of the curvature-computation pipeline of the `symcurve`
repository (files `src/curve/matrix.rs` and `src/curve/iters.rs`).

Modelling conventions:
* `f64` values are modelled as exact numbers: the decimal literals of the
  parameter tables, and every value obtained from them by field operations
  alone, live in `ℚ`; coordinates and curvature values, which pass through
  `sin`, `cos` and `sqrt`, live in `ℝ`.  In this exact embedding division
  by zero follows Lean's `x / 0 = 0` convention; the Rust code produces
  `NaN` there, and that error path is modelled separately by the IEEE view
  of the two windowed stages (`rollMeanAuxIeee`, `eucDistAuxIeee`,
  `curveIterIeee`), where an f64 is an `Option ℝ` and `none` models NaN.
* nucleotide bytes are modelled as `ℕ` (ASCII codes, `A` = 65, `C` = 67,
  `G` = 71, `T` = 84).
* each pull-based iterator of `iters.rs` is modelled as a function from the
  full input list to the full output list.  A sliding-buffer iterator whose
  `next` refills its buffer to the window size, emits a function of the
  buffer and pops the front is modelled by structural recursion on the input
  list: the current buffer is `take window_size` of the current suffix, and
  popping the front is recursing on the tail.  The incrementally maintained
  running sums of `RollMeanIter` equal the sum over the current buffer in
  exact arithmetic and are written as such.
-/

namespace Symcurve

/-- Roll table variant, from `matrix::RollType` (`Simple` or `Active`). -/
inductive RollType where
  | Simple
  | Active
deriving DecidableEq, Inhabited

/-- Type of the 4x4x4 nucleotide parameter tables, from `matrix::NucMatrix`
(`[[[f64; 4]; 4]; 4]`); the three dimensions are indexed by the first, second
and third nucleotide of a triplet. -/
abbrev NucMatrix := Fin 4 → Fin 4 → Fin 4 → ℚ

/-- The TWIST table: the constant 0.598647428 for every triplet
(`matrix::TWIST`). -/
def TWIST : NucMatrix := fun _ _ _ => 0.598647428

/-- The TILT table: uniformly zero (`matrix::TILT`). -/
def TILT : NucMatrix := fun _ _ _ => 0

/-- The simple roll table (`matrix::ROLL_SIMPLE`). -/
def ROLL_SIMPLE : NucMatrix :=
  ![![![0.0633, 0.3500, 4.6709, 2.64115],
      ![6.2734, 0.3500, 7.7171, 4.44325],
      ![4.8884, 3.9232, 5.0523, 6.8829],
      ![5.4903, 3.9232, 5.3055, 5.3055]],
    ![![4.6709, 6.2734, 5.00295, 5.0673],
      ![4.6709, 0.0633, 4.7618, 4.0633],
      ![7.7000, 5.4903, 3.05865, 6.75525],
      ![7.7000, 4.8884, 7.07195, 4.9907]],
    ![![4.0633, 4.44325, 5.9806, 5.51645],
      ![5.0673, 2.64115, 6.62555, 5.51645],
      ![4.9907, 5.3055, 5.89135, 9.0823],
      ![6.75525, 6.8829, 5.89135, 9.0823]],
    ![![4.7618, 7.7171, 6.8996, 6.62555],
      ![5.00295, 4.6709, 6.8996, 5.9806],
      ![7.07195, 5.3055, 3.869, 5.9000],
      ![3.05865, 5.0523, 3.869, 5.827]]]

/-- The activated roll table (`matrix::ROLL_ACTIVE`). -/
def ROLL_ACTIVE : NucMatrix :=
  ![![![0.1, 0.0, 4.2, 1.6],
      ![9.7, 0.0, 8.7, 3.6],
      ![6.5, 2.0, 4.7, 6.3],
      ![5.8, 2.0, 5.2, 5.2]],
    ![![7.3, 9.7, 7.8, 6.4],
      ![7.3, 0.1, 6.2, 5.1],
      ![10.0, 5.8, 0.7, 7.5],
      ![10.0, 6.5, 5.8, 6.2]],
    ![![5.1, 3.6, 6.6, 5.6],
      ![6.4, 1.6, 6.8, 5.6],
      ![6.2, 5.2, 5.7, 8.2],
      ![7.5, 6.3, 4.3, 8.2]],
    ![![6.2, 8.7, 9.6, 6.8],
      ![7.8, 4.2, 9.6, 6.6],
      ![5.8, 5.2, 3.0, 4.3],
      ![0.7, 4.7, 3.0, 5.7]]]

/-- Conversion of one nucleotide byte to a table index, from the `match`
inside `matrix::matrix_lookup`: `A` to 0, `C` to 1, `G` to 2, `T` to 3,
anything else to no index. -/
def nucIdx (x : ℕ) : Option (Fin 4) :=
  if x = 65 then some 0
  else if x = 67 then some 1
  else if x = 71 then some 2
  else if x = 84 then some 3
  else none

/-- Embedding of `matrix::matrix_lookup`: map each byte of the slice to its
index, dropping invalid bytes (the Rust `map(..).flatten()`), and succeed with
the addressed entry exactly when the surviving index list has length 3. -/
def matrix_lookup (triplet : List ℕ) (matrix : NucMatrix) : Option ℚ :=
  match triplet.filterMap nucIdx with
  | [i, j, k] => some (matrix i j k)
  | _ => none

/-- Geometry sample for one nucleotide triplet, from `iters::TripletData`.
The table-derived angles stay rational; the displacement components go
through `sin`/`cos` and are real. -/
structure TripletData where
  twist : ℚ
  roll : ℚ
  tilt : ℚ
  dx : ℝ
  dy : ℝ
  roll_type : RollType
deriving Inhabited

/-- Embedding of `TripletWindowsIter::next` unfolded over the whole input:
the current 3-byte buffer is the front of the current suffix, the emitted
sample is computed from it and the accumulated twist sum, and popping the
front of the buffer is recursing on the tail.  The Rust `.unwrap()` on the
lookups (which panics on a byte outside ACGT) has no counterpart here and is
modelled as `Option.getD 0`; every theorem about values assumes an
ACGT-only input, where the lookups succeed. -/
noncomputable def tripletWindowsAux (roll_type : RollType) (twist_sum : ℚ) :
    List ℕ → List TripletData
  | [] => []
  | a :: rest =>
    match rest with
    | b :: c :: _ =>
      let triplet := [a, b, c]
      let twist := (matrix_lookup triplet TWIST).getD 0
      let roll :=
        match roll_type with
        | RollType.Simple => (matrix_lookup triplet ROLL_SIMPLE).getD 0
        | RollType.Active => (matrix_lookup triplet ROLL_ACTIVE).getD 0
      let tilt := (matrix_lookup triplet TILT).getD 0
      let ts := twist_sum + twist
      { twist := twist
        roll := roll
        tilt := tilt
        dx := (roll : ℝ) * Real.sin (ts : ℝ) +
          (tilt : ℝ) * Real.sin ((ts : ℝ) + Real.pi / 2)
        dy := (roll : ℝ) * Real.cos (ts : ℝ) +
          (tilt : ℝ) * Real.cos ((ts : ℝ) + Real.pi / 2)
        roll_type := roll_type } :: tripletWindowsAux roll_type ts rest
    | _ => []

/-- The triplet resolver stage (`triplet_windows_iter`): twist sum starts
at 0. -/
noncomputable def tripletWindows (roll_type : RollType) (seq : List ℕ) :
    List TripletData :=
  tripletWindowsAux roll_type 0 seq

/-- Coordinate sample, from `iters::CoordsData`: a 2D position plus the
geometry sample whose displacement leads into the following position
(`none` only for the single synthetic trailing sample). -/
structure CoordsData where
  triplet_data : Option TripletData
  x : ℝ
  y : ℝ
deriving Inhabited

/-- Embedding of `CoordsIter::next` after the first (discarded) sample:
state is the previous position and the previous displacement.  Each incoming
geometry sample is paired with the position one step behind it; once the
input is exhausted one trailing sample with no geometry is emitted from the
last stored displacement (the `tail` flag of the Rust struct). -/
def coordsIterAux (prev_x prev_y prev_dx prev_dy : ℝ) :
    List TripletData → List CoordsData
  | [] => [{ triplet_data := none, x := prev_x + prev_dx, y := prev_y + prev_dy }]
  | t :: rest =>
    { triplet_data := some t, x := prev_x + prev_dx, y := prev_y + prev_dy } ::
      coordsIterAux (prev_x + prev_dx) (prev_y + prev_dy) t.dx t.dy rest

/-- The trajectory integrator stage (`coords_iter`).  The Rust iterator
computes and discards a first sample at the origin (the `head` flag) while
the previous displacement is still `(0, 0)`, so on a nonempty input the
remaining run starts from position `(0, 0)` with the first sample's
displacement stored; on an empty input only the trailing sample at
`(0 + 0, 0 + 0)` is emitted. -/
def coordsIter : List TripletData → List CoordsData
  | [] => coordsIterAux 0 0 0 0 []
  | t :: rest => coordsIterAux 0 0 t.dx t.dy rest

/-- Weighted rolling mean of a window of coordinates, from
`iters::RollMeanData`. -/
structure RollMeanData where
  x_bar : ℝ
  y_bar : ℝ
deriving Inhabited

/-- Mean emitted by `RollMeanIter::next` for one full buffer: the running
sum over the buffer, minus half the front and half the back element,
divided by `window_size - 1` (in the Rust, `x_roll_sum` is maintained
incrementally and equals the sum over the buffer in exact arithmetic). -/
noncomputable def rollMeanWindow (window_size : ℕ) (window : List CoordsData) :
    RollMeanData :=
  let x_roll_sum := (window.map CoordsData.x).sum
  let y_roll_sum := (window.map CoordsData.y).sum
  let front := window.headD default
  let back := window.getLastD default
  { x_bar := (x_roll_sum - 0.5 * front.x - 0.5 * back.x) / ((window_size : ℝ) - 1)
    y_bar := (y_roll_sum - 0.5 * front.y - 0.5 * back.y) / ((window_size : ℝ) - 1) }

/-- Embedding of `RollMeanIter::next` unfolded over the whole input: the
buffer is refilled to `window_size` elements from the current suffix; when
it is full a mean is emitted and the front is popped (recursion on the
tail), otherwise the stage ends. -/
noncomputable def rollMeanAux (window_size : ℕ) :
    List CoordsData → List RollMeanData
  | [] => []
  | x :: rest =>
    if window_size ≤ rest.length + 1 then
      rollMeanWindow window_size ((x :: rest).take window_size) ::
        rollMeanAux window_size rest
    else []

/-- The rolling-mean stage (`roll_mean_iter`): window size is
`step_size * 2 + 1`. -/
noncomputable def rollMeanIter (step_size : ℕ) (xs : List CoordsData) :
    List RollMeanData :=
  rollMeanAux (step_size * 2 + 1) xs

/-- Curvature value emitted by `EucDistIter::next` for one full buffer: the
Euclidean distance between the back (`right`) and front (`left`) elements. -/
noncomputable def eucDistWindow (window : List RollMeanData) : ℝ :=
  let left := window.headD default
  let right := window.getLastD default
  Real.sqrt ((right.y_bar - left.y_bar) ^ 2 + (right.x_bar - left.x_bar) ^ 2)

/-- Embedding of `EucDistIter::next` unfolded over the whole input, with the
same buffer discipline as the rolling-mean stage. -/
noncomputable def eucDistAux (window_size : ℕ) : List RollMeanData → List ℝ
  | [] => []
  | m :: rest =>
    if window_size ≤ rest.length + 1 then
      eucDistWindow ((m :: rest).take window_size) :: eucDistAux window_size rest
    else []

/-- The curvature stage (`euc_dist_iter`): window size is
`curve_step_size * 2 + 1`. -/
noncomputable def eucDistIter (curve_step_size : ℕ) (ms : List RollMeanData) :
    List ℝ :=
  eucDistAux (curve_step_size * 2 + 1) ms

/-- The composed pipeline, from `CurveIter::new`:
`triplet_windows_iter(roll_type).coords_iter().roll_mean_iter(step_b).euc_dist_iter(step_c)`. -/
noncomputable def curveIter (seq : List ℕ) (roll_type : RollType)
    (step_b step_c : ℕ) : List ℝ :=
  eucDistIter step_c (rollMeanIter step_b (coordsIter (tripletWindows roll_type seq)))

/-! Refined IEEE view of the two windowed stages.  Here an f64 is an
`Option ℝ` whose `none` models NaN, so the division by `window_size - 1`
is not collapsed to 0 at window size 1 as it is in the exact embedding
above.  The triplet and trajectory stages only ever produce finite reals
(table values and sines/cosines of finite arguments, combined by ring
operations), so they are shared with the exact embedding; NaN first arises
in the rolling-mean division. -/

/-- Embedding of IEEE f64 division for the cases this pipeline reaches:
NaN propagates and division by zero yields NaN.  (In IEEE a nonzero
dividend over zero gives an infinity rather than NaN, but in this pipeline
a zero divisor only occurs at window size 1, where the edge-adjusted
dividend `x - 0.5*x - 0.5*x` is exactly zero, also in f64.) -/
noncomputable def nanDiv : Option ℝ → Option ℝ → Option ℝ
  | some a, some b => if b = 0 then none else some (a / b)
  | _, _ => none

/-- IEEE f64 subtraction on finite-or-NaN values: NaN propagates. -/
def nanSub : Option ℝ → Option ℝ → Option ℝ
  | some a, some b => some (a - b)
  | _, _ => none

/-- IEEE f64 addition on finite-or-NaN values: NaN propagates. -/
def nanAdd : Option ℝ → Option ℝ → Option ℝ
  | some a, some b => some (a + b)
  | _, _ => none

/-- IEEE f64 `powf(2.0)` on finite-or-NaN values: NaN propagates. -/
def nanPow2 : Option ℝ → Option ℝ
  | some a => some (a ^ 2)
  | none => none

/-- IEEE f64 square root: NaN on NaN (and on negative input). -/
noncomputable def nanSqrt : Option ℝ → Option ℝ
  | some a => if a < 0 then none else some (Real.sqrt a)
  | none => none

/-- The pair emitted by `RollMeanIter::next` under the IEEE view: the same
edge-adjusted sums as `rollMeanWindow`, with the division modelled by
`nanDiv`, so window size 1 (step size 0) emits NaN means.  The first
component is the x mean, the second the y mean. -/
noncomputable def rollMeanWindowIeee (window_size : ℕ) (window : List CoordsData) :
    Option ℝ × Option ℝ :=
  let x_roll_sum := (window.map CoordsData.x).sum
  let y_roll_sum := (window.map CoordsData.y).sum
  let front := window.headD default
  let back := window.getLastD default
  (nanDiv (some (x_roll_sum - 0.5 * front.x - 0.5 * back.x))
      (some ((window_size : ℝ) - 1)),
    nanDiv (some (y_roll_sum - 0.5 * front.y - 0.5 * back.y))
      (some ((window_size : ℝ) - 1)))

/-- `RollMeanIter::next` unfolded over the whole input under the IEEE view,
with the same buffer discipline as `rollMeanAux`. -/
noncomputable def rollMeanAuxIeee (window_size : ℕ) :
    List CoordsData → List (Option ℝ × Option ℝ)
  | [] => []
  | x :: rest =>
    if window_size ≤ rest.length + 1 then
      rollMeanWindowIeee window_size ((x :: rest).take window_size) ::
        rollMeanAuxIeee window_size rest
    else []

/-- The value emitted by `EucDistIter::next` under the IEEE view: the same
expression as `eucDistWindow` with every operation in NaN-propagating
form. -/
noncomputable def eucDistWindowIeee (window : List (Option ℝ × Option ℝ)) :
    Option ℝ :=
  let left := window.headD default
  let right := window.getLastD default
  nanSqrt (nanAdd (nanPow2 (nanSub right.2 left.2)) (nanPow2 (nanSub right.1 left.1)))

/-- `EucDistIter::next` unfolded over the whole input under the IEEE view. -/
noncomputable def eucDistAuxIeee (window_size : ℕ) :
    List (Option ℝ × Option ℝ) → List (Option ℝ)
  | [] => []
  | m :: rest =>
    if window_size ≤ rest.length + 1 then
      eucDistWindowIeee ((m :: rest).take window_size) ::
        eucDistAuxIeee window_size rest
    else []

/-- The composed pipeline of `CurveIter::new` under the IEEE view of the
two windowed stages. -/
noncomputable def curveIterIeee (seq : List ℕ) (roll_type : RollType)
    (step_b step_c : ℕ) : List (Option ℝ) :=
  eucDistAuxIeee (step_c * 2 + 1)
    (rollMeanAuxIeee (step_b * 2 + 1) (coordsIter (tripletWindows roll_type seq)))

/-! Helper lemmas: output lengths and emitted values of each stage. -/

theorem tripletWindowsAux_length (rt : RollType) :
    ∀ (xs : List ℕ) (ts : ℚ), (tripletWindowsAux rt ts xs).length = xs.length - 2
  | [], _ => rfl
  | [_], _ => rfl
  | [_, _], _ => rfl
  | a :: b :: c :: r, ts => by
    have h : (tripletWindowsAux rt ts (a :: b :: c :: r)).length
        = (tripletWindowsAux rt (ts + (matrix_lookup [a, b, c] TWIST).getD 0)
            (b :: c :: r)).length + 1 := rfl
    rw [h, tripletWindowsAux_length rt (b :: c :: r)]
    simp [List.length_cons]

theorem tripletWindows_length (rt : RollType) (seq : List ℕ) :
    (tripletWindows rt seq).length = seq.length - 2 :=
  tripletWindowsAux_length rt seq 0

theorem coordsIterAux_length :
    ∀ (ts : List TripletData) (px py pdx pdy : ℝ),
      (coordsIterAux px py pdx pdy ts).length = ts.length + 1
  | [], _, _, _, _ => rfl
  | t :: rest, px, py, pdx, pdy => by
    have h : (coordsIterAux px py pdx pdy (t :: rest)).length
        = (coordsIterAux (px + pdx) (py + pdy) t.dx t.dy rest).length + 1 := rfl
    rw [h, coordsIterAux_length rest]
    simp

theorem coordsIter_length (ts : List TripletData) :
    (coordsIter ts).length = max ts.length 1 := by
  match ts with
  | [] => rfl
  | t :: rest =>
    have h : (coordsIter (t :: rest)).length
        = (coordsIterAux 0 0 t.dx t.dy rest).length := rfl
    rw [h, coordsIterAux_length rest]
    simp [List.length_cons]

theorem rollMeanAux_length (W : ℕ) (hW : 1 ≤ W) :
    ∀ xs : List CoordsData, (rollMeanAux W xs).length = xs.length + 1 - W
  | [] => by
    simp [rollMeanAux]
    omega
  | x :: rest => by
    rcases le_or_lt W (rest.length + 1) with h | h
    · have e : rollMeanAux W (x :: rest)
          = rollMeanWindow W ((x :: rest).take W) :: rollMeanAux W rest := by
        simp [rollMeanAux, h]
      rw [e, List.length_cons, rollMeanAux_length W hW rest]
      simp only [List.length_cons]
      omega
    · have h' : ¬ W ≤ rest.length + 1 := by omega
      have e : rollMeanAux W (x :: rest) = [] := by
        simp [rollMeanAux, h']
      rw [e]
      simp only [List.length_nil, List.length_cons]
      omega

theorem eucDistAux_length (W : ℕ) (hW : 1 ≤ W) :
    ∀ ms : List RollMeanData, (eucDistAux W ms).length = ms.length + 1 - W
  | [] => by
    simp [eucDistAux]
    omega
  | m :: rest => by
    rcases le_or_lt W (rest.length + 1) with h | h
    · have e : eucDistAux W (m :: rest)
          = eucDistWindow ((m :: rest).take W) :: eucDistAux W rest := by
        simp [eucDistAux, h]
      rw [e, List.length_cons, eucDistAux_length W hW rest]
      simp only [List.length_cons]
      omega
    · have h' : ¬ W ≤ rest.length + 1 := by omega
      have e : eucDistAux W (m :: rest) = [] := by
        simp [eucDistAux, h']
      rw [e]
      simp only [List.length_nil, List.length_cons]
      omega

theorem rollMeanAux_getD (W : ℕ) (hW : 1 ≤ W) :
    ∀ (xs : List CoordsData) (i : ℕ), i + W ≤ xs.length →
      (rollMeanAux W xs).getD i default = rollMeanWindow W ((xs.drop i).take W)
  | [], i, h => by
    simp only [List.length_nil] at h
    exact absurd h (by omega)
  | x :: rest, 0, h => by
    have hcond : W ≤ rest.length + 1 := by simpa using h
    have e : rollMeanAux W (x :: rest)
        = rollMeanWindow W ((x :: rest).take W) :: rollMeanAux W rest := by
      simp [rollMeanAux, hcond]
    rw [e]
    simp
  | x :: rest, i + 1, h => by
    have hlen : i + 1 + W ≤ rest.length + 1 := by simpa using h
    have hcond : W ≤ rest.length + 1 := by omega
    have e : rollMeanAux W (x :: rest)
        = rollMeanWindow W ((x :: rest).take W) :: rollMeanAux W rest := by
      simp [rollMeanAux, hcond]
    rw [e, List.getD_cons_succ, rollMeanAux_getD W hW rest i (by omega)]
    rfl

theorem eucDistAux_getD (W : ℕ) (hW : 1 ≤ W) :
    ∀ (ms : List RollMeanData) (i : ℕ), i + W ≤ ms.length →
      (eucDistAux W ms).getD i default = eucDistWindow ((ms.drop i).take W)
  | [], i, h => by
    simp only [List.length_nil] at h
    exact absurd h (by omega)
  | m :: rest, 0, h => by
    have hcond : W ≤ rest.length + 1 := by simpa using h
    have e : eucDistAux W (m :: rest)
        = eucDistWindow ((m :: rest).take W) :: eucDistAux W rest := by
      simp [eucDistAux, hcond]
    rw [e]
    simp
  | m :: rest, i + 1, h => by
    have hlen : i + 1 + W ≤ rest.length + 1 := by simpa using h
    have hcond : W ≤ rest.length + 1 := by omega
    have e : eucDistAux W (m :: rest)
        = eucDistWindow ((m :: rest).take W) :: eucDistAux W rest := by
      simp [eucDistAux, hcond]
    rw [e, List.getD_cons_succ, eucDistAux_getD W hW rest i (by omega)]
    rfl

theorem window_length {α : Type} (xs : List α) (i W : ℕ) (h : i + W ≤ xs.length) :
    ((xs.drop i).take W).length = W := by
  rw [List.length_take, List.length_drop]
  exact min_eq_left (by omega)

theorem window_headD {α : Type} [Inhabited α] (xs : List α) (i W : ℕ)
    (hW : 1 ≤ W) (h : i + W ≤ xs.length) :
    ((xs.drop i).take W).headD default = xs.getD i default := by
  rw [List.headD_eq_head?, List.head?_eq_getElem?, List.getD_eq_getElem?_getD,
    List.getElem?_take, if_pos (by omega), List.getElem?_drop]
  simp

theorem window_getLastD {α : Type} [Inhabited α] (xs : List α) (i W : ℕ)
    (hW : 1 ≤ W) (h : i + W ≤ xs.length) :
    ((xs.drop i).take W).getLastD default = xs.getD (i + (W - 1)) default := by
  rw [List.getLastD_eq_getLast?, List.getLast?_eq_getElem?,
    window_length xs i W h, List.getElem?_take, if_pos (by omega),
    List.getElem?_drop, List.getD_eq_getElem?_getD]

theorem length_filterMap_nucIdx :
    ∀ t : List ℕ, (t.filterMap nucIdx).length = t.countP (fun b => (nucIdx b).isSome)
  | [] => rfl
  | b :: r => by
    cases h : nucIdx b <;>
      simp [List.filterMap_cons, h, List.countP_cons, length_filterMap_nucIdx r]

/-! Claim theorems. -/

/-- C4: for an input of nucleotide symbols of length L, all bytes in
{A,C,G,T}, the triplet resolver yields exactly L - 2 geometry samples when
L ≥ 3, and exactly 0 when L < 3. -/
theorem tripletWindows_count (rt : RollType) (seq : List ℕ)
    (hvalid : ∀ b ∈ seq, (nucIdx b).isSome) :
    (3 ≤ seq.length → (tripletWindows rt seq).length = seq.length - 2) ∧
    (seq.length < 3 → (tripletWindows rt seq).length = 0) := by
  refine ⟨fun _ => tripletWindows_length rt seq, fun h => ?_⟩
  rw [tripletWindows_length rt seq]
  omega

/-- Witness for C4 at the sequence ACGT. -/
theorem tripletWindows_count_witness :
    (∀ b ∈ ([65, 67, 71, 84] : List ℕ), (nucIdx b).isSome) ∧
    3 ≤ ([65, 67, 71, 84] : List ℕ).length ∧
    (tripletWindows RollType.Simple [65, 67, 71, 84]).length
      = ([65, 67, 71, 84] : List ℕ).length - 2 :=
  ⟨by decide, by decide,
    (tripletWindows_count RollType.Simple [65, 67, 71, 84] (by decide)).1 (by decide)⟩

/-- C5 counterexample: on an upstream of zero geometry samples the
trajectory integrator emits one coordinate sample, not zero, so the claimed
one-to-one correspondence for every N ≥ 0 fails at N = 0. -/
theorem coordsIter_nil_count_cex :
    ¬ ((coordsIter ([] : List TripletData)).length = ([] : List TripletData).length) := by
  decide

/-- C5 amended: for every upstream stream of N ≥ 1 geometry samples the
trajectory integrator emits exactly N coordinate samples. -/
theorem coordsIter_count (ts : List TripletData) (h : 1 ≤ ts.length) :
    (coordsIter ts).length = ts.length := by
  rw [coordsIter_length ts]
  omega

/-- Witness for the amended C5 at a one-element upstream. -/
theorem coordsIter_count_witness :
    1 ≤ ([default] : List TripletData).length ∧
    (coordsIter [default]).length = ([default] : List TripletData).length :=
  ⟨by decide, coordsIter_count [default] (by decide)⟩

/-- C10: on an upstream of zero geometry samples the trajectory integrator
emits exactly one coordinate sample, at (0, 0), with no associated
geometry. -/
theorem coordsIter_nil_spec :
    (coordsIter ([] : List TripletData)).length = 1 ∧
    ((coordsIter []).getD 0 default).triplet_data = none ∧
    ((coordsIter []).getD 0 default).x = 0 ∧
    ((coordsIter []).getD 0 default).y = 0 := by
  refine ⟨rfl, rfl, ?_, ?_⟩ <;>
  · show (0 : ℝ) + 0 = 0
    norm_num

/-- C1 counterexample: for the sequence AC with both step sizes 0 the claim
predicts L - 2 - 0 - 0 = 0 emitted curvature values, but the pipeline emits
one (from the synthetic trailing coordinate). -/
theorem curveIter_count_cex :
    ¬ ((curveIter [65, 67] RollType.Simple 0 0).length = 0) := by
  decide

/-- C1 amended: for a raw ACGT sequence of length L ≥ 3 the pipeline emits
max(0, L - 2 - 2·stepB - 2·stepC) curvature values; for L < 3 it emits one
value when both step sizes are 0 and none otherwise. -/
theorem curveIter_count (seq : List ℕ) (rt : RollType) (step_b step_c : ℕ)
    (hvalid : ∀ b ∈ seq, (nucIdx b).isSome) :
    (3 ≤ seq.length →
      ((curveIter seq rt step_b step_c).length : ℤ)
        = max 0 ((seq.length : ℤ) - 2 - 2 * step_b - 2 * step_c)) ∧
    (seq.length < 3 →
      (curveIter seq rt step_b step_c).length
        = if step_b = 0 ∧ step_c = 0 then 1 else 0) := by
  have hW1 : 1 ≤ step_b * 2 + 1 := by omega
  have hW2 : 1 ≤ step_c * 2 + 1 := by omega
  have h4 : (curveIter seq rt step_b step_c).length
      = (max (seq.length - 2) 1 + 1 - (step_b * 2 + 1)) + 1 - (step_c * 2 + 1) := by
    show (eucDistAux (step_c * 2 + 1)
        (rollMeanAux (step_b * 2 + 1) (coordsIter (tripletWindows rt seq)))).length = _
    rw [eucDistAux_length _ hW2, rollMeanAux_length _ hW1, coordsIter_length,
      tripletWindows_length]
  constructor
  · intro h3
    rw [h4]
    omega
  · intro h3
    rw [h4]
    by_cases hb : step_b = 0 <;> by_cases hc : step_c = 0 <;> simp [hb, hc] <;> omega

/-- Witness for the amended C1 at the sequence ACGTA with stepB = 1 and
stepC = 0. -/
theorem curveIter_count_witness :
    (∀ b ∈ ([65, 67, 71, 84, 65] : List ℕ), (nucIdx b).isSome) ∧
    3 ≤ ([65, 67, 71, 84, 65] : List ℕ).length ∧
    ((curveIter [65, 67, 71, 84, 65] RollType.Simple 1 0).length : ℤ)
      = max 0 ((([65, 67, 71, 84, 65] : List ℕ).length : ℤ) - 2 - 2 * 1 - 2 * 0) :=
  ⟨by decide, by decide,
    (curveIter_count [65, 67, 71, 84, 65] RollType.Simple 1 0 (by decide)).1 (by decide)⟩

/-- C6: a matrix lookup succeeds exactly when the slice holds exactly three
valid symbols, and on success returns the entry addressed by the three
indices of the valid symbols in order (first symbol = first dimension). -/
theorem matrix_lookup_spec (t : List ℕ) (M : NucMatrix) :
    ((matrix_lookup t M).isSome ↔ t.countP (fun b => (nucIdx b).isSome) = 3) ∧
    ∀ i j k : Fin 4, t.filterMap nucIdx = [i, j, k] →
      matrix_lookup t M = some (M i j k) := by
  constructor
  · rw [← length_filterMap_nucIdx t]
    show (match t.filterMap nucIdx with
      | [i, j, k] => some (M i j k)
      | _ => none).isSome ↔ (t.filterMap nucIdx).length = 3
    generalize t.filterMap nucIdx = l
    rcases l with _ | ⟨i, _ | ⟨j, _ | ⟨k, _ | ⟨m, r⟩⟩⟩⟩ <;> simp
  · intro i j k hl
    simp [matrix_lookup, hl]

/-- Witness for C6 at the slice ACG and the simple roll table. -/
theorem matrix_lookup_spec_witness :
    ([65, 67, 71] : List ℕ).filterMap nucIdx = [0, 1, 2] ∧
    matrix_lookup [65, 67, 71] ROLL_SIMPLE = some (ROLL_SIMPLE 0 1 2) :=
  ⟨by decide, (matrix_lookup_spec [65, 67, 71] ROLL_SIMPLE).2 0 1 2 (by decide)⟩

theorem rollMeanWindow_x_bar (W : ℕ) (win : List CoordsData) :
    (rollMeanWindow W win).x_bar
      = ((win.map CoordsData.x).sum - 0.5 * (win.headD default).x
          - 0.5 * (win.getLastD default).x) / ((W : ℝ) - 1) := rfl

theorem rollMeanWindow_y_bar (W : ℕ) (win : List CoordsData) :
    (rollMeanWindow W win).y_bar
      = ((win.map CoordsData.y).sum - 0.5 * (win.headD default).y
          - 0.5 * (win.getLastD default).y) / ((W : ℝ) - 1) := rfl

theorem eucDistWindow_val (win : List RollMeanData) :
    eucDistWindow win
      = Real.sqrt (((win.getLastD default).y_bar - (win.headD default).y_bar) ^ 2
          + ((win.getLastD default).x_bar - (win.headD default).x_bar) ^ 2) := rfl

/-- C2: for L coordinate samples and window W = 2·step_size + 1 the rolling
mean stage emits max(0, L - W + 1) outputs, and output i equals the sum over
the W buffered samples (the window starting at i) minus half the earliest
and half the latest buffered sample, divided by W - 1, separately for x
and y. -/
theorem rollMeanIter_spec (step_size : ℕ) (xs : List CoordsData) :
    (((rollMeanIter step_size xs).length : ℤ)
      = max 0 ((xs.length : ℤ) - (step_size * 2 + 1) + 1)) ∧
    ∀ i : ℕ, i + (step_size * 2 + 1) ≤ xs.length →
      ((rollMeanIter step_size xs).getD i default).x_bar
        = ((((xs.drop i).take (step_size * 2 + 1)).map CoordsData.x).sum
            - 0.5 * (xs.getD i default).x
            - 0.5 * (xs.getD (i + step_size * 2) default).x)
          / (((step_size * 2 + 1 : ℕ) : ℝ) - 1) ∧
      ((rollMeanIter step_size xs).getD i default).y_bar
        = ((((xs.drop i).take (step_size * 2 + 1)).map CoordsData.y).sum
            - 0.5 * (xs.getD i default).y
            - 0.5 * (xs.getD (i + step_size * 2) default).y)
          / (((step_size * 2 + 1 : ℕ) : ℝ) - 1) := by
  have hW : 1 ≤ step_size * 2 + 1 := by omega
  constructor
  · rw [show rollMeanIter step_size xs = rollMeanAux (step_size * 2 + 1) xs from rfl,
      rollMeanAux_length _ hW]
    omega
  · intro i hi
    have hg : (rollMeanIter step_size xs).getD i default
        = rollMeanWindow (step_size * 2 + 1) ((xs.drop i).take (step_size * 2 + 1)) :=
      rollMeanAux_getD _ hW xs i hi
    rw [hg, rollMeanWindow_x_bar, rollMeanWindow_y_bar,
      window_headD xs i _ hW hi, window_getLastD xs i _ hW hi, Nat.add_sub_cancel]
    exact ⟨rfl, rfl⟩

/-- Witness for C2 at a three-sample input with step size 1 and output
index 0. -/
theorem rollMeanIter_spec_witness :
    0 + (1 * 2 + 1)
      ≤ ([⟨none, 1, 2⟩, ⟨none, 3, 4⟩, ⟨none, 5, 6⟩] : List CoordsData).length ∧
    ((rollMeanIter 1 [⟨none, 1, 2⟩, ⟨none, 3, 4⟩, ⟨none, 5, 6⟩]).getD 0 default).x_bar
      = ((((([⟨none, 1, 2⟩, ⟨none, 3, 4⟩, ⟨none, 5, 6⟩] : List CoordsData).drop 0).take
            (1 * 2 + 1)).map CoordsData.x).sum
          - 0.5 * (([⟨none, 1, 2⟩, ⟨none, 3, 4⟩, ⟨none, 5, 6⟩] : List CoordsData).getD 0
              default).x
          - 0.5 * (([⟨none, 1, 2⟩, ⟨none, 3, 4⟩, ⟨none, 5, 6⟩] : List CoordsData).getD
              (0 + 1 * 2) default).x) / (((1 * 2 + 1 : ℕ) : ℝ) - 1) ∧
    ((rollMeanIter 1 [⟨none, 1, 2⟩, ⟨none, 3, 4⟩, ⟨none, 5, 6⟩]).getD 0 default).y_bar
      = ((((([⟨none, 1, 2⟩, ⟨none, 3, 4⟩, ⟨none, 5, 6⟩] : List CoordsData).drop 0).take
            (1 * 2 + 1)).map CoordsData.y).sum
          - 0.5 * (([⟨none, 1, 2⟩, ⟨none, 3, 4⟩, ⟨none, 5, 6⟩] : List CoordsData).getD 0
              default).y
          - 0.5 * (([⟨none, 1, 2⟩, ⟨none, 3, 4⟩, ⟨none, 5, 6⟩] : List CoordsData).getD
              (0 + 1 * 2) default).y) / (((1 * 2 + 1 : ℕ) : ℝ) - 1) :=
  ⟨by decide,
    (rollMeanIter_spec 1 [⟨none, 1, 2⟩, ⟨none, 3, 4⟩, ⟨none, 5, 6⟩]).2 0 (by decide)⟩

/-- C3: for M rolling-mean samples and window V = 2·curve_step_size + 1 the
curvature stage emits max(0, M - V + 1) values, and value i is the
Euclidean distance between the newest (right) and oldest (left) samples of
the window starting at i. -/
theorem eucDistIter_spec (curve_step_size : ℕ) (ms : List RollMeanData) :
    (((eucDistIter curve_step_size ms).length : ℤ)
      = max 0 ((ms.length : ℤ) - (curve_step_size * 2 + 1) + 1)) ∧
    ∀ i : ℕ, i + (curve_step_size * 2 + 1) ≤ ms.length →
      (eucDistIter curve_step_size ms).getD i default
        = Real.sqrt
            (((ms.getD (i + curve_step_size * 2) default).x_bar
                - (ms.getD i default).x_bar) ^ 2
              + ((ms.getD (i + curve_step_size * 2) default).y_bar
                - (ms.getD i default).y_bar) ^ 2) := by
  have hW : 1 ≤ curve_step_size * 2 + 1 := by omega
  constructor
  · rw [show eucDistIter curve_step_size ms
        = eucDistAux (curve_step_size * 2 + 1) ms from rfl, eucDistAux_length _ hW]
    omega
  · intro i hi
    have hg : (eucDistIter curve_step_size ms).getD i default
        = eucDistWindow ((ms.drop i).take (curve_step_size * 2 + 1)) :=
      eucDistAux_getD _ hW ms i hi
    rw [hg, eucDistWindow_val, window_headD ms i _ hW hi,
      window_getLastD ms i _ hW hi, Nat.add_sub_cancel]
    exact congrArg Real.sqrt (add_comm _ _)

/-- Witness for C3 at a three-sample input with curve step size 1 and
output index 0. -/
theorem eucDistIter_spec_witness :
    0 + (1 * 2 + 1) ≤ ([⟨3, 0⟩, ⟨4, 0⟩, ⟨7, 10⟩] : List RollMeanData).length ∧
    (eucDistIter 1 [⟨3, 0⟩, ⟨4, 0⟩, ⟨7, 10⟩]).getD 0 default
      = Real.sqrt
          (((([⟨3, 0⟩, ⟨4, 0⟩, ⟨7, 10⟩] : List RollMeanData).getD (0 + 1 * 2)
                default).x_bar
              - (([⟨3, 0⟩, ⟨4, 0⟩, ⟨7, 10⟩] : List RollMeanData).getD 0 default).x_bar) ^ 2
            + ((([⟨3, 0⟩, ⟨4, 0⟩, ⟨7, 10⟩] : List RollMeanData).getD (0 + 1 * 2)
                default).y_bar
              - (([⟨3, 0⟩, ⟨4, 0⟩, ⟨7, 10⟩] : List RollMeanData).getD 0 default).y_bar) ^ 2) :=
  ⟨by decide, (eucDistIter_spec 1 [⟨3, 0⟩, ⟨4, 0⟩, ⟨7, 10⟩]).2 0 (by decide)⟩

/-- C8 counterexample: with step size 0 the window is 1 and the divisor
W - 1 is zero, so even a constant input does not reproduce the constant
(the Rust code computes 0.0/0.0 = NaN there; in this exact embedding the
emitted mean is 0). -/
theorem rollMean_const_cex :
    ¬ (((rollMeanIter 0 [{ triplet_data := none, x := 1, y := 1 }]).getD 0
        default).x_bar = 1) := by
  have h : ((rollMeanIter 0 [{ triplet_data := none, x := 1, y := 1 }]).getD 0
      default).x_bar
      = ((1 : ℝ) + 0 - 0.5 * 1 - 0.5 * 1) / (((0 * 2 + 1 : ℕ) : ℝ) - 1) := rfl
  rw [h]
  norm_num

/-- C8 amended: for every constant (cx, cy), every step size s ≥ 1 and every
input of length at least W = 2·s + 1 all of whose samples equal the
constant, every emitted mean equals the constant exactly (for s = 0 the
divisor W - 1 is zero and the property fails). -/
theorem rollMean_const (step_size : ℕ) (hs : 1 ≤ step_size) (cx cy : ℝ)
    (xs : List CoordsData) (hconst : ∀ z ∈ xs, z.x = cx ∧ z.y = cy)
    (hlen : step_size * 2 + 1 ≤ xs.length) :
    ∀ i : ℕ, i < (rollMeanIter step_size xs).length →
      ((rollMeanIter step_size xs).getD i default).x_bar = cx ∧
      ((rollMeanIter step_size xs).getD i default).y_bar = cy := by
  intro i hi
  have hW : 1 ≤ step_size * 2 + 1 := by omega
  have hlen2 : (rollMeanIter step_size xs).length
      = xs.length + 1 - (step_size * 2 + 1) := rollMeanAux_length _ hW xs
  have hiW : i + (step_size * 2 + 1) ≤ xs.length := by
    rw [hlen2] at hi
    omega
  have hwin : ∀ z ∈ (xs.drop i).take (step_size * 2 + 1), z.x = cx ∧ z.y = cy :=
    fun z hz => hconst z (List.mem_of_mem_drop (List.mem_of_mem_take hz))
  have hwlen : ((xs.drop i).take (step_size * 2 + 1)).length = step_size * 2 + 1 :=
    window_length xs i _ hiW
  have hsumx : (((xs.drop i).take (step_size * 2 + 1)).map CoordsData.x).sum
      = ((step_size * 2 + 1 : ℕ) : ℝ) * cx := by
    have hrep : ((xs.drop i).take (step_size * 2 + 1)).map CoordsData.x
        = List.replicate (step_size * 2 + 1) cx := by
      rw [List.eq_replicate_iff]
      refine ⟨by simp [hwlen]; omega, ?_⟩
      intro b hb
      rcases List.mem_map.mp hb with ⟨z, hz, hzb⟩
      rw [← hzb]
      exact (hwin z hz).1
    rw [hrep, List.sum_replicate, nsmul_eq_mul]
  have hsumy : (((xs.drop i).take (step_size * 2 + 1)).map CoordsData.y).sum
      = ((step_size * 2 + 1 : ℕ) : ℝ) * cy := by
    have hrep : ((xs.drop i).take (step_size * 2 + 1)).map CoordsData.y
        = List.replicate (step_size * 2 + 1) cy := by
      rw [List.eq_replicate_iff]
      refine ⟨by simp [hwlen]; omega, ?_⟩
      intro b hb
      rcases List.mem_map.mp hb with ⟨z, hz, hzb⟩
      rw [← hzb]
      exact (hwin z hz).2
    rw [hrep, List.sum_replicate, nsmul_eq_mul]
  have hhead : (xs.getD i default).x = cx ∧ (xs.getD i default).y = cy := by
    have hilt : i < xs.length := by omega
    rw [List.getD_eq_getElem xs default hilt]
    exact hconst _ (List.getElem_mem hilt)
  have hlast : (xs.getD (i + step_size * 2) default).x = cx ∧
      (xs.getD (i + step_size * 2) default).y = cy := by
    have hilt : i + step_size * 2 < xs.length := by omega
    rw [List.getD_eq_getElem xs default hilt]
    exact hconst _ (List.getElem_mem hilt)
  have hg : (rollMeanIter step_size xs).getD i default
      = rollMeanWindow (step_size * 2 + 1) ((xs.drop i).take (step_size * 2 + 1)) :=
    rollMeanAux_getD _ hW xs i hiW
  have hne : (((step_size * 2 + 1 : ℕ) : ℝ) - 1) ≠ 0 := by
    have h3 : (3 : ℕ) ≤ step_size * 2 + 1 := by omega
    have h3' : (3 : ℝ) ≤ ((step_size * 2 + 1 : ℕ) : ℝ) := by exact_mod_cast h3
    intro h0
    linarith
  constructor
  · rw [hg, rollMeanWindow_x_bar, window_headD xs i _ hW hiW,
      window_getLastD xs i _ hW hiW, Nat.add_sub_cancel, hsumx, hhead.1, hlast.1]
    field_simp
    ring
  · rw [hg, rollMeanWindow_y_bar, window_headD xs i _ hW hiW,
      window_getLastD xs i _ hW hiW, Nat.add_sub_cancel, hsumy, hhead.2, hlast.2]
    field_simp
    ring

/-- Witness for the amended C8 at the constant (2, 3), step size 1 and a
three-sample constant input. -/
theorem rollMean_const_witness :
    1 ≤ 1 ∧
    (∀ z ∈ List.replicate 3 ({ triplet_data := none, x := 2, y := 3 } : CoordsData),
      z.x = 2 ∧ z.y = 3) ∧
    1 * 2 + 1
      ≤ (List.replicate 3 ({ triplet_data := none, x := 2, y := 3 } : CoordsData)).length ∧
    0 < (rollMeanIter 1
        (List.replicate 3 ({ triplet_data := none, x := 2, y := 3 } : CoordsData))).length ∧
    ((rollMeanIter 1
        (List.replicate 3 ({ triplet_data := none, x := 2, y := 3 } : CoordsData))).getD 0
          default).x_bar = 2 ∧
    ((rollMeanIter 1
        (List.replicate 3 ({ triplet_data := none, x := 2, y := 3 } : CoordsData))).getD 0
          default).y_bar = 3 := by
  have hconst : ∀ z ∈ List.replicate 3
      ({ triplet_data := none, x := 2, y := 3 } : CoordsData), z.x = 2 ∧ z.y = 3 := by
    intro z hz
    rw [List.eq_of_mem_replicate hz]
    exact ⟨rfl, rfl⟩
  have hmain := rollMean_const 1 (by decide) 2 3
    (List.replicate 3 ({ triplet_data := none, x := 2, y := 3 } : CoordsData)) hconst
    (by decide) 0 (by decide)
  exact ⟨by decide, hconst, by decide, by decide, hmain.1, hmain.2⟩

/-! Numeric bounds on sin(0.598647428), the twist sum after the first
triplet, obtained from cubic Taylor bounds at 0.598647428 / 16 followed by
four double-angle steps. -/

theorem sin_t16_bounds :
    0.0374066324215 ≤ Real.sin 0.03741546425 ∧
      Real.sin 0.03741546425 ≤ 0.0374068365641 := by
  have h := Real.sin_bound (x := 0.03741546425)
    (by rw [abs_of_pos (by norm_num : (0 : ℝ) < 0.03741546425)]; norm_num)
  rw [abs_of_pos (by norm_num : (0 : ℝ) < 0.03741546425)] at h
  have h2 := abs_le.mp h
  norm_num at h2
  constructor <;> linarith [h2.1, h2.2]

theorem cos_t16_bounds :
    0.9992999394462 ≤ Real.cos 0.03741546425 ∧
      Real.cos 0.03741546425 ≤ 0.9993001435888 := by
  have h := Real.cos_bound (x := 0.03741546425)
    (by rw [abs_of_pos (by norm_num : (0 : ℝ) < 0.03741546425)]; norm_num)
  rw [abs_of_pos (by norm_num : (0 : ℝ) < 0.03741546425)] at h
  have h2 := abs_le.mp h
  norm_num at h2
  constructor <;> linarith [h2.1, h2.2]

theorem sin_t8_bounds :
    0.0747608910273 ≤ Real.sin 0.0748309285 ∧
      Real.sin 0.0748309285 ≤ 0.0747613142995 := by
  have harg : (0.0748309285 : ℝ) = 2 * 0.03741546425 := by norm_num
  rw [harg, Real.sin_two_mul]
  have hs := sin_t16_bounds
  have hc := cos_t16_bounds
  constructor <;> nlinarith [hs.1, hs.2, hc.1, hc.2]

theorem cos_t8_bounds :
    0.9972014571565 ≤ Real.cos 0.0748309285 ∧
      Real.cos 0.0748309285 ≤ 0.9972014877018 := by
  have harg : (0.0748309285 : ℝ) = 2 * 0.03741546425 := by norm_num
  have hid : Real.cos (2 * 0.03741546425)
      = 1 - 2 * Real.sin 0.03741546425 ^ 2 := by
    have h1 := Real.cos_two_mul (0.03741546425 : ℝ)
    have h2 := Real.sin_sq_add_cos_sq (0.03741546425 : ℝ)
    linarith [h1, h2]
  rw [harg, hid]
  have hs := sin_t16_bounds
  constructor <;> nlinarith [hs.1, hs.2]

theorem sin_t4_bounds :
    0.1491033389414 ≤ Real.sin 0.149661857 ∧
      Real.sin 0.149661857 ≤ 0.1491041876841 := by
  have harg : (0.149661857 : ℝ) = 2 * 0.0748309285 := by norm_num
  rw [harg, Real.sin_two_mul]
  have hs := sin_t8_bounds
  have hc := cos_t8_bounds
  constructor <;> nlinarith [hs.1, hs.2, hc.1, hc.2]

theorem cos_t4_bounds :
    0.9888214917684 ≤ Real.cos 0.149661857 ∧
      Real.cos 0.149661857 ≤ 0.9888216183457 := by
  have harg : (0.149661857 : ℝ) = 2 * 0.0748309285 := by norm_num
  have hid : Real.cos (2 * 0.0748309285)
      = 1 - 2 * Real.sin 0.0748309285 ^ 2 := by
    have h1 := Real.cos_two_mul (0.0748309285 : ℝ)
    have h2 := Real.sin_sq_add_cos_sq (0.0748309285 : ℝ)
    linarith [h1, h2]
  rw [harg, hid]
  have hs := sin_t8_bounds
  constructor <;> nlinarith [hs.1, hs.2]

theorem sin_t2_bounds :
    0.2948731720793 ≤ Real.sin 0.299323714 ∧
      Real.sin 0.299323714 ≤ 0.2948748883359 := by
  have harg : (0.299323714 : ℝ) = 2 * 0.149661857 := by norm_num
  rw [harg, Real.sin_two_mul]
  have hs := sin_t4_bounds
  have hc := cos_t4_bounds
  constructor <;> nlinarith [hs.1, hs.2, hc.1, hc.2]

theorem cos_t2_bounds :
    0.9555358824301 ≤ Real.cos 0.299323714 ∧
      Real.cos 0.299323714 ≤ 0.9555363886331 := by
  have harg : (0.299323714 : ℝ) = 2 * 0.149661857 := by norm_num
  have hid : Real.cos (2 * 0.149661857)
      = 1 - 2 * Real.sin 0.149661857 ^ 2 := by
    have h1 := Real.cos_two_mul (0.149661857 : ℝ)
    have h2 := Real.sin_sq_add_cos_sq (0.149661857 : ℝ)
    linarith [h1, h2]
  rw [harg, hid]
  have hs := sin_t4_bounds
  constructor <;> nlinarith [hs.1, hs.2]

theorem sin_t_bounds :
    0.5635237933755 ≤ Real.sin 0.598647428 ∧
      Real.sin 0.598647428 ≤ 0.5635273717982 := by
  have harg : (0.598647428 : ℝ) = 2 * 0.299323714 := by norm_num
  rw [harg, Real.sin_two_mul]
  have hs := sin_t2_bounds
  have hc := cos_t2_bounds
  constructor <;> nlinarith [hs.1, hs.2, hc.1, hc.2]

/-- C7: the sequence ACGTAGGT in Roll-Simple mode yields exactly 6 geometry
samples, their roll values are in order 7.7171, 6.75525, 6.75525, 6.8996,
5.0523, 9.0823 each within 1e-6 (they are table entries, hence exact), and
the first sample's dx is within 1e-4 of 4.3488. -/
theorem tripletWindows_acgtaggt :
    (tripletWindows RollType.Simple [65, 67, 71, 84, 65, 71, 71, 84]).length = 6 ∧
    |((tripletWindows RollType.Simple [65, 67, 71, 84, 65, 71, 71, 84]).getD 0
        default).roll - 7.7171| ≤ 1e-6 ∧
    |((tripletWindows RollType.Simple [65, 67, 71, 84, 65, 71, 71, 84]).getD 1
        default).roll - 6.75525| ≤ 1e-6 ∧
    |((tripletWindows RollType.Simple [65, 67, 71, 84, 65, 71, 71, 84]).getD 2
        default).roll - 6.75525| ≤ 1e-6 ∧
    |((tripletWindows RollType.Simple [65, 67, 71, 84, 65, 71, 71, 84]).getD 3
        default).roll - 6.8996| ≤ 1e-6 ∧
    |((tripletWindows RollType.Simple [65, 67, 71, 84, 65, 71, 71, 84]).getD 4
        default).roll - 5.0523| ≤ 1e-6 ∧
    |((tripletWindows RollType.Simple [65, 67, 71, 84, 65, 71, 71, 84]).getD 5
        default).roll - 9.0823| ≤ 1e-6 ∧
    |((tripletWindows RollType.Simple [65, 67, 71, 84, 65, 71, 71, 84]).getD 0
        default).dx - 4.3488| ≤ 1e-4 := by
  refine ⟨rfl, ?_, ?_, ?_, ?_, ?_, ?_, ?_⟩
  · rw [show ((tripletWindows RollType.Simple [65, 67, 71, 84, 65, 71, 71, 84]).getD 0
        default).roll = (7.7171 : ℚ) from rfl]
    norm_num
  · rw [show ((tripletWindows RollType.Simple [65, 67, 71, 84, 65, 71, 71, 84]).getD 1
        default).roll = (6.75525 : ℚ) from rfl]
    norm_num
  · rw [show ((tripletWindows RollType.Simple [65, 67, 71, 84, 65, 71, 71, 84]).getD 2
        default).roll = (6.75525 : ℚ) from rfl]
    norm_num
  · rw [show ((tripletWindows RollType.Simple [65, 67, 71, 84, 65, 71, 71, 84]).getD 3
        default).roll = (6.8996 : ℚ) from rfl]
    norm_num
  · rw [show ((tripletWindows RollType.Simple [65, 67, 71, 84, 65, 71, 71, 84]).getD 4
        default).roll = (5.0523 : ℚ) from rfl]
    norm_num
  · rw [show ((tripletWindows RollType.Simple [65, 67, 71, 84, 65, 71, 71, 84]).getD 5
        default).roll = (9.0823 : ℚ) from rfl]
    norm_num
  · rw [show ((tripletWindows RollType.Simple [65, 67, 71, 84, 65, 71, 71, 84]).getD 0
        default).dx
        = ((7.7171 : ℚ) : ℝ) * Real.sin (((0 : ℚ) + 0.598647428 : ℚ) : ℝ)
          + ((0 : ℚ) : ℝ) * Real.sin ((((0 : ℚ) + 0.598647428 : ℚ) : ℝ) + Real.pi / 2)
      from rfl]
    have harg : (((0 : ℚ) + 0.598647428 : ℚ) : ℝ) = (0.598647428 : ℝ) := by norm_num
    have hco : ((7.7171 : ℚ) : ℝ) = (7.7171 : ℝ) := by norm_num
    have hz : ((0 : ℚ) : ℝ) = 0 := by norm_num
    rw [harg, hco, hz, zero_mul, add_zero]
    have hs := sin_t_bounds
    rw [abs_le]
    constructor <;> nlinarith [hs.1, hs.2]

/-! Lemmas for the IEEE view, and the non-negativity claim. -/

theorem rollMeanWindowIeee_some (W : ℕ) (win : List CoordsData)
    (hne : (W : ℝ) - 1 ≠ 0) :
    rollMeanWindowIeee W win
      = (some (((win.map CoordsData.x).sum - 0.5 * (win.headD default).x
            - 0.5 * (win.getLastD default).x) / ((W : ℝ) - 1)),
          some (((win.map CoordsData.y).sum - 0.5 * (win.headD default).y
            - 0.5 * (win.getLastD default).y) / ((W : ℝ) - 1))) := by
  simp [rollMeanWindowIeee, nanDiv, hne]

theorem rollMeanAuxIeee_mem_some (W : ℕ) (hW : 2 ≤ W) :
    ∀ (xs : List CoordsData) (m : Option ℝ × Option ℝ),
      m ∈ rollMeanAuxIeee W xs → ∃ a b : ℝ, m = (some a, some b)
  | [], m, hm => by simp [rollMeanAuxIeee] at hm
  | x :: rest, m, hm => by
    have hne : (W : ℝ) - 1 ≠ 0 := by
      have h2 : (2 : ℝ) ≤ (W : ℝ) := by exact_mod_cast hW
      intro h0
      linarith
    rcases le_or_lt W (rest.length + 1) with h | h
    · have e : rollMeanAuxIeee W (x :: rest)
          = rollMeanWindowIeee W ((x :: rest).take W) :: rollMeanAuxIeee W rest := by
        simp [rollMeanAuxIeee, h]
      rw [e] at hm
      rcases List.mem_cons.mp hm with hm1 | hm2
      · exact ⟨_, _, by rw [hm1, rollMeanWindowIeee_some W _ hne]⟩
      · exact rollMeanAuxIeee_mem_some W hW rest m hm2
    · have h' : ¬ W ≤ rest.length + 1 := by omega
      have e : rollMeanAuxIeee W (x :: rest) = [] := by
        simp [rollMeanAuxIeee, h']
      rw [e] at hm
      exact absurd hm (by simp)

theorem eucDistAuxIeee_length (W : ℕ) (hW : 1 ≤ W) :
    ∀ ms : List (Option ℝ × Option ℝ),
      (eucDistAuxIeee W ms).length = ms.length + 1 - W
  | [] => by
    simp [eucDistAuxIeee]
    omega
  | m :: rest => by
    rcases le_or_lt W (rest.length + 1) with h | h
    · have e : eucDistAuxIeee W (m :: rest)
          = eucDistWindowIeee ((m :: rest).take W) :: eucDistAuxIeee W rest := by
        simp [eucDistAuxIeee, h]
      rw [e, List.length_cons, eucDistAuxIeee_length W hW rest]
      simp only [List.length_cons]
      omega
    · have h' : ¬ W ≤ rest.length + 1 := by omega
      have e : eucDistAuxIeee W (m :: rest) = [] := by
        simp [eucDistAuxIeee, h']
      rw [e]
      simp only [List.length_nil, List.length_cons]
      omega

theorem eucDistAuxIeee_getD (W : ℕ) (hW : 1 ≤ W) :
    ∀ (ms : List (Option ℝ × Option ℝ)) (i : ℕ), i + W ≤ ms.length →
      (eucDistAuxIeee W ms).getD i none = eucDistWindowIeee ((ms.drop i).take W)
  | [], i, h => by
    simp only [List.length_nil] at h
    exact absurd h (by omega)
  | m :: rest, 0, h => by
    have hcond : W ≤ rest.length + 1 := by simpa using h
    have e : eucDistAuxIeee W (m :: rest)
        = eucDistWindowIeee ((m :: rest).take W) :: eucDistAuxIeee W rest := by
      simp [eucDistAuxIeee, hcond]
    rw [e]
    simp
  | m :: rest, i + 1, h => by
    have hlen : i + 1 + W ≤ rest.length + 1 := by simpa using h
    have hcond : W ≤ rest.length + 1 := by omega
    have e : eucDistAuxIeee W (m :: rest)
        = eucDistWindowIeee ((m :: rest).take W) :: eucDistAuxIeee W rest := by
      simp [eucDistAuxIeee, hcond]
    rw [e, List.getD_cons_succ, eucDistAuxIeee_getD W hW rest i (by omega)]
    rfl

theorem eucDistWindowIeee_val (win : List (Option ℝ × Option ℝ)) :
    eucDistWindowIeee win
      = nanSqrt (nanAdd
          (nanPow2 (nanSub (win.getLastD default).2 (win.headD default).2))
          (nanPow2 (nanSub (win.getLastD default).1 (win.headD default).1))) := rfl

/-- C9 counterexample: for the sequence ACG with both step sizes 0 the
pipeline emits exactly one curvature value and it is NaN (the rolling-mean
stage divides an exactly-zero adjusted sum by the zero divisor W - 1 and
the NaN propagates through the curvature stage), so not every emitted value
is a non-negative number. -/
theorem curveIterIeee_nan_cex :
    curveIterIeee [65, 67, 71] RollType.Simple 0 0 = [none] ∧
    ¬ ∃ r : ℝ, (curveIterIeee [65, 67, 71] RollType.Simple 0 0).getD 0 none
        = some r ∧ 0 ≤ r := by
  obtain ⟨c, hc⟩ := List.length_eq_one.mp
    (show (coordsIter (tripletWindows RollType.Simple [65, 67, 71])).length = 1 from rfl)
  have hms : rollMeanAuxIeee (0 * 2 + 1)
      (coordsIter (tripletWindows RollType.Simple [65, 67, 71])) = [(none, none)] := by
    rw [hc]
    simp [rollMeanAuxIeee, rollMeanWindowIeee, nanDiv]
  have hlist : curveIterIeee [65, 67, 71] RollType.Simple 0 0 = [none] := by
    show eucDistAuxIeee (0 * 2 + 1) (rollMeanAuxIeee (0 * 2 + 1)
      (coordsIter (tripletWindows RollType.Simple [65, 67, 71]))) = [none]
    rw [hms]
    simp [eucDistAuxIeee, eucDistWindowIeee, nanSub, nanPow2, nanAdd, nanSqrt]
  refine ⟨hlist, ?_⟩
  rw [hlist]
  simp

/-- C9 amended: for every input sequence, every roll mode, every rolling-mean
step size at least 1, and every curvature step size, every curvature value
emitted by the pipeline is a non-negative floating-point number (with
rolling-mean step size 0 the divisor W - 1 is zero and the emitted values
are NaN instead). -/
theorem curveIterIeee_nonneg (seq : List ℕ) (rt : RollType) (step_b step_c : ℕ)
    (hb : 1 ≤ step_b) (i : ℕ)
    (hi : i < (curveIterIeee seq rt step_b step_c).length) :
    ∃ r : ℝ, (curveIterIeee seq rt step_b step_c).getD i none = some r ∧ 0 ≤ r := by
  set ms := rollMeanAuxIeee (step_b * 2 + 1) (coordsIter (tripletWindows rt seq))
    with hms
  have hV : 1 ≤ step_c * 2 + 1 := by omega
  have hlen : (curveIterIeee seq rt step_b step_c).length
      = ms.length + 1 - (step_c * 2 + 1) := eucDistAuxIeee_length _ hV ms
  have hiV : i + (step_c * 2 + 1) ≤ ms.length := by
    rw [hlen] at hi
    omega
  have hg : (curveIterIeee seq rt step_b step_c).getD i none
      = eucDistWindowIeee ((ms.drop i).take (step_c * 2 + 1)) :=
    eucDistAuxIeee_getD _ hV ms i hiV
  have hmem1 : ms.getD i default ∈ ms := by
    rw [List.getD_eq_getElem ms default (by omega)]
    exact List.getElem_mem _
  have hmem2 : ms.getD (i + (step_c * 2 + 1 - 1)) default ∈ ms := by
    rw [List.getD_eq_getElem ms default (by omega)]
    exact List.getElem_mem _
  have hW2 : 2 ≤ step_b * 2 + 1 := by omega
  obtain ⟨a₁, b₁, h1⟩ := rollMeanAuxIeee_mem_some _ hW2 _ _ hmem1
  obtain ⟨a₂, b₂, h2⟩ := rollMeanAuxIeee_mem_some _ hW2 _ _ hmem2
  rw [hg, eucDistWindowIeee_val, window_headD ms i _ hV hiV,
    window_getLastD ms i _ hV hiV, h1, h2]
  refine ⟨Real.sqrt ((b₂ - b₁) ^ 2 + (a₂ - a₁) ^ 2), ?_, Real.sqrt_nonneg _⟩
  simp only [nanSub, nanPow2, nanAdd, nanSqrt]
  rw [if_neg (not_lt.mpr (by positivity : (0 : ℝ) ≤ (b₂ - b₁) ^ 2 + (a₂ - a₁) ^ 2))]

/-- Witness for the amended C9 at the sequence ACGTA with stepB = 1 and
stepC = 0, where one curvature value is emitted. -/
theorem curveIterIeee_nonneg_witness :
    1 ≤ 1 ∧
    0 < (curveIterIeee [65, 67, 71, 84, 65] RollType.Simple 1 0).length ∧
    ∃ r : ℝ, (curveIterIeee [65, 67, 71, 84, 65] RollType.Simple 1 0).getD 0 none
        = some r ∧ 0 ≤ r :=
  ⟨by decide, by decide,
    curveIterIeee_nonneg [65, 67, 71, 84, 65] RollType.Simple 1 0 (by decide) 0
      (by decide)⟩

end Symcurve
